import Mathlib

/-!
Verification of the AGC archive access layer: a safe wrapper around a foreign
genome-compression engine.  The wrapper is embedded shallowly.  The foreign
engine is a parameter of every operation: a structure holding one function per
foreign entry point.  Each wrapper operation of the source is a pure Lean
function of that parameter which returns its result together with the ordered
list of foreign calls it performed, so that statements about what is invoked
before an error, and how often the array destructor runs, are expressible.
Process aborts of the source (slice out of bounds, oversized allocation) are a
distinguished outcome, separate from the typed error outcome.
-/

/-- Byte strings crossing the foreign boundary: lists of byte values. -/
abbrev ByteStr := List Nat

/-- Detection of an embedded nul byte; CString construction fails exactly on it. -/
def hasNul (s : ByteStr) : Bool := s.contains 0

/-- Translation of the optional sample argument, mirroring the source expression
sample.map CString new ok flatten: an embedded nul silently drops the sample to
none instead of failing. -/
def cSampleOf (sample : Option ByteStr) : Option ByteStr :=
  sample.bind (fun s => if hasNul s then none else some s)

/-- Largest isize value on a 64 bit target; a Vec allocation beyond it panics. -/
def isizeMax : Nat := 2 ^ 63 - 1

/-- Wrapping 32 bit signed subtraction: the release semantics of the i32
subtraction end - start in the source. -/
def i32sub (a b : Int) : Int := (a - b + 2 ^ 31) % 2 ^ 32 - 2 ^ 31

/-- Cast of an i32 value to usize on a 64 bit target: sign extension followed by
an unsigned reinterpretation. -/
def usizeCast (v : Int) : Nat := (v % 2 ^ 64).toNat

/-- Buffer size computed by the range extraction in the source:
(end - start) as usize + 1, with usize wraparound on the addition. -/
def seqBufSize (start end_ : Int) : Nat := (usizeCast (i32sub end_ start) + 1) % 2 ^ 64

/-- Contents of a zero initialised buffer of size n after the foreign call has
written the byte list w into its front. -/
def writeBuf (n : Nat) (w : List Nat) : List Nat :=
  w.take n ++ List.replicate (n - w.length) 0

/-- Utf8 continuation byte test. -/
def isCont (b : Nat) : Bool := 0x80 ≤ b && b ≤ 0xBF

/-- Validator for utf8 byte sequences, mirroring the stdlib validation run by
String from_utf8 in the source. -/
def isValidUtf8 : List Nat → Bool
  | [] => true
  | b :: rest =>
    if b ≤ 0x7F then isValidUtf8 rest
    else if 0xC2 ≤ b && b ≤ 0xDF then
      match rest with
      | c1 :: r => isCont c1 && isValidUtf8 r
      | [] => false
    else if b == 0xE0 then
      match rest with
      | c1 :: c2 :: r => (0xA0 ≤ c1 && c1 ≤ 0xBF) && isCont c2 && isValidUtf8 r
      | _ => false
    else if (0xE1 ≤ b && b ≤ 0xEC) || (0xEE ≤ b && b ≤ 0xEF) then
      match rest with
      | c1 :: c2 :: r => isCont c1 && isCont c2 && isValidUtf8 r
      | _ => false
    else if b == 0xED then
      match rest with
      | c1 :: c2 :: r => (0x80 ≤ c1 && c1 ≤ 0x9F) && isCont c2 && isValidUtf8 r
      | _ => false
    else if b == 0xF0 then
      match rest with
      | c1 :: c2 :: c3 :: r =>
          (0x90 ≤ c1 && c1 ≤ 0xBF) && isCont c2 && isCont c3 && isValidUtf8 r
      | _ => false
    else if 0xF1 ≤ b && b ≤ 0xF3 then
      match rest with
      | c1 :: c2 :: c3 :: r => isCont c1 && isCont c2 && isCont c3 && isValidUtf8 r
      | _ => false
    else if b == 0xF4 then
      match rest with
      | c1 :: c2 :: c3 :: r =>
          (0x80 ≤ c1 && c1 ≤ 0x8F) && isCont c2 && isCont c3 && isValidUtf8 r
      | _ => false
    else false

/-- Replacement character U+FFFD encoded in utf8. -/
def repl : List Nat := [0xEF, 0xBF, 0xBD]

/-- Fuelled worker for the lossy utf8 decoder used by to_string_lossy in the
source; every step consumes at least one input byte, so fuel equal to the input
length never runs out.  Invalid sequences are replaced following the maximal
subpart convention of the stdlib decoder. -/
def lossyDecodeF : Nat → List Nat → List Nat
  | 0, _ => []
  | _ + 1, [] => []
  | fuel + 1, b :: rest =>
    if b ≤ 0x7F then b :: lossyDecodeF fuel rest
    else if 0xC2 ≤ b && b ≤ 0xDF then
      match rest with
      | c1 :: r =>
          if isCont c1 then b :: c1 :: lossyDecodeF fuel r
          else repl ++ lossyDecodeF fuel rest
      | [] => repl
    else if b == 0xE0 then
      match rest with
      | c1 :: c2 :: r =>
          if 0xA0 ≤ c1 && c1 ≤ 0xBF then
            if isCont c2 then b :: c1 :: c2 :: lossyDecodeF fuel r
            else repl ++ lossyDecodeF fuel (c2 :: r)
          else repl ++ lossyDecodeF fuel rest
      | [c1] =>
          if 0xA0 ≤ c1 && c1 ≤ 0xBF then repl else repl ++ lossyDecodeF fuel [c1]
      | [] => repl
    else if (0xE1 ≤ b && b ≤ 0xEC) || (0xEE ≤ b && b ≤ 0xEF) then
      match rest with
      | c1 :: c2 :: r =>
          if isCont c1 then
            if isCont c2 then b :: c1 :: c2 :: lossyDecodeF fuel r
            else repl ++ lossyDecodeF fuel (c2 :: r)
          else repl ++ lossyDecodeF fuel rest
      | [c1] => if isCont c1 then repl else repl ++ lossyDecodeF fuel [c1]
      | [] => repl
    else if b == 0xED then
      match rest with
      | c1 :: c2 :: r =>
          if 0x80 ≤ c1 && c1 ≤ 0x9F then
            if isCont c2 then b :: c1 :: c2 :: lossyDecodeF fuel r
            else repl ++ lossyDecodeF fuel (c2 :: r)
          else repl ++ lossyDecodeF fuel rest
      | [c1] =>
          if 0x80 ≤ c1 && c1 ≤ 0x9F then repl else repl ++ lossyDecodeF fuel [c1]
      | [] => repl
    else if b == 0xF0 then
      match rest with
      | c1 :: c2 :: c3 :: r =>
          if 0x90 ≤ c1 && c1 ≤ 0xBF then
            if isCont c2 then
              if isCont c3 then b :: c1 :: c2 :: c3 :: lossyDecodeF fuel r
              else repl ++ lossyDecodeF fuel (c3 :: r)
            else repl ++ lossyDecodeF fuel (c2 :: r)
          else repl ++ lossyDecodeF fuel rest
      | [c1, c2] =>
          if 0x90 ≤ c1 && c1 ≤ 0xBF then
            if isCont c2 then repl else repl ++ lossyDecodeF fuel [c2]
          else repl ++ lossyDecodeF fuel [c1, c2]
      | [c1] =>
          if 0x90 ≤ c1 && c1 ≤ 0xBF then repl else repl ++ lossyDecodeF fuel [c1]
      | [] => repl
    else if 0xF1 ≤ b && b ≤ 0xF3 then
      match rest with
      | c1 :: c2 :: c3 :: r =>
          if isCont c1 then
            if isCont c2 then
              if isCont c3 then b :: c1 :: c2 :: c3 :: lossyDecodeF fuel r
              else repl ++ lossyDecodeF fuel (c3 :: r)
            else repl ++ lossyDecodeF fuel (c2 :: r)
          else repl ++ lossyDecodeF fuel rest
      | [c1, c2] =>
          if isCont c1 then
            if isCont c2 then repl else repl ++ lossyDecodeF fuel [c2]
          else repl ++ lossyDecodeF fuel [c1, c2]
      | [c1] => if isCont c1 then repl else repl ++ lossyDecodeF fuel [c1]
      | [] => repl
    else if b == 0xF4 then
      match rest with
      | c1 :: c2 :: c3 :: r =>
          if 0x80 ≤ c1 && c1 ≤ 0x8F then
            if isCont c2 then
              if isCont c3 then b :: c1 :: c2 :: c3 :: lossyDecodeF fuel r
              else repl ++ lossyDecodeF fuel (c3 :: r)
            else repl ++ lossyDecodeF fuel (c2 :: r)
          else repl ++ lossyDecodeF fuel rest
      | [c1, c2] =>
          if 0x80 ≤ c1 && c1 ≤ 0x8F then
            if isCont c2 then repl else repl ++ lossyDecodeF fuel [c2]
          else repl ++ lossyDecodeF fuel [c1, c2]
      | [c1] =>
          if 0x80 ≤ c1 && c1 ≤ 0x8F then repl else repl ++ lossyDecodeF fuel [c1]
      | [] => repl
    else repl ++ lossyDecodeF fuel rest

/-- Lossy utf8 decoding as performed by to_string_lossy in the source. -/
def lossyDecode (s : List Nat) : List Nat := lossyDecodeF s.length s

/-- Foreign entry points invoked by the wrapper, recorded in call order. -/
inductive FEvent where
  | openEv (filename : ByteStr) (prefetching : Int)
  | getCtgLenEv (sample : Option ByteStr) (name : ByteStr)
  | getCtgSeqEv (sample : Option ByteStr) (name : ByteStr) (start end_ : Int)
  | nSampleEv
  | nCtgEv (sample : ByteStr)
  | referenceSampleEv
  | listSampleEv
  | listCtgEv (sample : Option ByteStr)
  | listDestroyEv
  deriving DecidableEq

/-- Errors produced by the wrapper.  The source formats message strings; each
constructor here records the message template together with the data that the
source interpolates into it. -/
inductive RErr where
  | nulError
  | openFailed (filename : ByteStr)
  | ctgLenFailed (name : ByteStr)
  | ctgSeqFailed (name : ByteStr)
  | invalidUtf8
  | refSampleFailed
  | listSampleFailed
  | listCtgFailed
  deriving DecidableEq

/-- Outcome of a wrapper call: an Ok value, an Err value, or a process abort
(a panic on a slice out of bounds or on an oversized vector allocation). -/
inductive RRes (α : Type) where
  | ok (val : α)
  | error (e : RErr)
  | crash
  deriving DecidableEq

/-- Behaviour of the foreign engine: one field per foreign entry point used by
the wrapper.  A pointer result is modelled by Nat with zero for null, a possibly
null string result by Option ByteStr, a string array by a list of possibly null
strings whose length is the count the foreign layer reports, and the sequence
extraction by the returned code paired with the bytes it writes into the caller
buffer.  The array destructor is side effecting only and is tracked through the
event trace. -/
structure Foreign where
  agc_open : ByteStr → Int → Nat
  agc_get_ctg_len : Nat → Option ByteStr → ByteStr → Int
  agc_get_ctg_seq : Nat → Option ByteStr → ByteStr → Int → Int → Int × List Nat
  agc_n_sample : Nat → Int
  agc_n_ctg : Nat → ByteStr → Int
  agc_reference_sample : Nat → Option ByteStr
  agc_list_sample : Nat → Option (List (Option ByteStr))
  agc_list_ctg : Nat → Option ByteStr → Option (List (Option ByteStr))

/-- Safe wrapper state: the held foreign handle. -/
structure AgcFile where
  handle : Nat
  deriving DecidableEq

/-- Model of AgcFile open: nul check on the path, then the foreign open; a null
handle becomes the open failure error carrying the attempted path. -/
def AgcFile.open_ (F : Foreign) (filename : ByteStr) (prefetching : Bool) :
    RRes AgcFile × List FEvent :=
  if hasNul filename then (.error .nulError, [])
  else if F.agc_open filename (if prefetching then 1 else 0) = 0 then
    (.error (.openFailed filename), [.openEv filename (if prefetching then 1 else 0)])
  else
    (.ok ⟨F.agc_open filename (if prefetching then 1 else 0)⟩,
     [.openEv filename (if prefetching then 1 else 0)])

/-- Model of AgcFile get_ctg_len: nul check on the name, silent drop of a nul
sample, then the foreign length call; a negative code becomes an error carrying
the contig name. -/
def AgcFile.get_ctg_len (F : Foreign) (self : AgcFile) (sample : Option ByteStr)
    (name : ByteStr) : RRes Int × List FEvent :=
  if hasNul name then (.error .nulError, [])
  else if F.agc_get_ctg_len self.handle (cSampleOf sample) name < 0 then
    (.error (.ctgLenFailed name), [.getCtgLenEv (cSampleOf sample) name])
  else
    (.ok (F.agc_get_ctg_len self.handle (cSampleOf sample) name),
     [.getCtgLenEv (cSampleOf sample) name])

/-- Model of AgcFile get_ctg_seq: nul check on the name, silent drop of a nul
sample, allocation of a buffer of seqBufSize bytes (a panic when that exceeds
the isize maximum), the foreign extraction call, the negative code check, the
slice of the first returned-code bytes (a panic when it exceeds the buffer), and
finally utf8 validation of those bytes. -/
def AgcFile.get_ctg_seq (F : Foreign) (self : AgcFile) (sample : Option ByteStr)
    (name : ByteStr) (start end_ : Int) : RRes ByteStr × List FEvent :=
  if hasNul name then (.error .nulError, [])
  else if isizeMax < seqBufSize start end_ then (.crash, [])
  else if (F.agc_get_ctg_seq self.handle (cSampleOf sample) name start end_).1 < 0 then
    (.error (.ctgSeqFailed name), [.getCtgSeqEv (cSampleOf sample) name start end_])
  else if seqBufSize start end_ <
      (F.agc_get_ctg_seq self.handle (cSampleOf sample) name start end_).1.toNat then
    (.crash, [.getCtgSeqEv (cSampleOf sample) name start end_])
  else if isValidUtf8 ((writeBuf (seqBufSize start end_)
      (F.agc_get_ctg_seq self.handle (cSampleOf sample) name start end_).2).take
      (F.agc_get_ctg_seq self.handle (cSampleOf sample) name start end_).1.toNat) then
    (.ok ((writeBuf (seqBufSize start end_)
      (F.agc_get_ctg_seq self.handle (cSampleOf sample) name start end_).2).take
      (F.agc_get_ctg_seq self.handle (cSampleOf sample) name start end_).1.toNat),
     [.getCtgSeqEv (cSampleOf sample) name start end_])
  else (.error .invalidUtf8, [.getCtgSeqEv (cSampleOf sample) name start end_])

/-- Model of AgcFile n_sample: the raw foreign count, returned unchanged. -/
def AgcFile.n_sample (F : Foreign) (self : AgcFile) : Int × List FEvent :=
  (F.agc_n_sample self.handle, [.nSampleEv])

/-- Model of AgcFile n_ctg: nul check on the sample, then the raw foreign count
wrapped in Ok unconditionally. -/
def AgcFile.n_ctg (F : Foreign) (self : AgcFile) (sample : ByteStr) :
    RRes Int × List FEvent :=
  if hasNul sample then (.error .nulError, [])
  else (.ok (F.agc_n_ctg self.handle sample), [.nCtgEv sample])

/-- Model of AgcFile reference_sample: a null pointer becomes an error, any
string is decoded lossily. -/
def AgcFile.reference_sample (F : Foreign) (self : AgcFile) :
    RRes ByteStr × List FEvent :=
  match F.agc_reference_sample self.handle with
  | none => (.error .refSampleFailed, [.referenceSampleEv])
  | some bs => (.ok (lossyDecode bs), [.referenceSampleEv])

/-- Model of AgcFile list_sample: a null array becomes an error before any
destroy call; otherwise every non-null entry is copied with lossy decoding
(null entries are skipped) and the array destructor runs once afterwards. -/
def AgcFile.list_sample (F : Foreign) (self : AgcFile) :
    RRes (List ByteStr) × List FEvent :=
  match F.agc_list_sample self.handle with
  | none => (.error .listSampleFailed, [.listSampleEv])
  | some arr =>
      (.ok (arr.filterMap (fun p => p.map lossyDecode)),
       [.listSampleEv, .listDestroyEv])

/-- Model of AgcFile list_ctg: silent drop of a nul sample, then as list_sample. -/
def AgcFile.list_ctg (F : Foreign) (self : AgcFile) (sample : Option ByteStr) :
    RRes (List ByteStr) × List FEvent :=
  match F.agc_list_ctg self.handle (cSampleOf sample) with
  | none => (.error .listCtgFailed, [.listCtgEv (cSampleOf sample)])
  | some arr =>
      (.ok (arr.filterMap (fun p => p.map lossyDecode)),
       [.listCtgEv (cSampleOf sample), .listDestroyEv])

/-- Concrete foreign behaviour used to evaluate the wrapper on closed inputs. -/
def Fbase : Foreign where
  agc_open := fun _ _ => 1
  agc_get_ctg_len := fun _ _ _ => 7
  agc_get_ctg_seq := fun _ _ _ start end_ => (i32sub end_ start, List.replicate 40 65)
  agc_n_sample := fun _ => 2
  agc_n_ctg := fun _ _ => 3
  agc_reference_sample := fun _ => some [82]
  agc_list_sample := fun _ => some [some [65], some [66]]
  agc_list_ctg := fun _ _ => some [some [67], some [68], some [69]]

/-- Concrete foreign behaviour whose lookup calls signal failure sentinels. -/
def Fneg : Foreign :=
  { Fbase with
    agc_get_ctg_len := fun _ _ _ => -1
    agc_get_ctg_seq := fun _ _ _ _ _ => (-1, []) }

/-- Concrete foreign behaviour whose counting calls return negative values. -/
def FnegCount : Foreign :=
  { Fbase with
    agc_n_sample := fun _ => -5
    agc_n_ctg := fun _ _ => -3 }

/-- Concrete foreign behaviour whose extraction call returns zero bytes. -/
def Fzero : Foreign :=
  { Fbase with agc_get_ctg_seq := fun _ _ _ _ _ => (0, []) }

/-- Concrete foreign behaviour whose extraction call writes invalid utf8. -/
def Fbad : Foreign :=
  { Fbase with agc_get_ctg_seq := fun _ _ _ _ _ => (2, [255, 255]) }

/-- Concrete foreign behaviour whose open call returns a null handle. -/
def FnullOpen : Foreign :=
  { Fbase with agc_open := fun _ _ => 0 }

/-- Concrete foreign behaviour whose pointer returning calls yield null. -/
def Fnull : Foreign :=
  { Fbase with
    agc_reference_sample := fun _ => none
    agc_list_sample := fun _ => none
    agc_list_ctg := fun _ _ => none }


lemma cSampleOf_nul {s : ByteStr} (h : hasNul s = true) : cSampleOf (some s) = none := by
  simp [cSampleOf, h]

lemma writeBuf_length (n : Nat) (w : List Nat) : (writeBuf n w).length = n := by
  simp [writeBuf]
  omega

lemma length_filterMap_of_no_none {arr : List (Option ByteStr)}
    (h : ∀ x ∈ arr, x ≠ none) :
    (arr.filterMap (fun p => p.map lossyDecode)).length = arr.length := by
  induction arr with
  | nil => simp
  | cons a as ih =>
    cases a with
    | none => exact absurd rfl (h none (by simp))
    | some v =>
      have ih2 := ih (fun x hx => h x (List.mem_cons_of_mem _ hx))
      simp [List.filterMap_cons, ih2]

/-- C2 counterexample: a sample name consisting of a nul byte does not make
get_ctg_len fail with an encoding error; the call succeeds, a foreign call is
made, and the sample was silently dropped to a null pointer. -/
theorem c2_counterexample :
    hasNul [0] = true ∧
    AgcFile.get_ctg_len Fbase ⟨1⟩ (some [0]) [65] = (.ok 7, [.getCtgLenEv none [65]]) := by
  decide

/-- C2 amended: the path of open, the contig name of get_ctg_len and
get_ctg_seq, and the required sample of n_ctg are rejected with an encoding
error before any foreign call when they contain an embedded nul; however the
optional sample name of get_ctg_len, get_ctg_seq and list_ctg containing an
embedded nul is silently dropped to the null sample pointer, and the operation
proceeds exactly as if no sample had been supplied. -/
theorem c2_amended :
    (∀ F fname p, hasNul fname = true →
      AgcFile.open_ F fname p = (.error .nulError, [])) ∧
    (∀ F self sample name, hasNul name = true →
      AgcFile.get_ctg_len F self sample name = (.error .nulError, [])) ∧
    (∀ F self sample name start end_, hasNul name = true →
      AgcFile.get_ctg_seq F self sample name start end_ = (.error .nulError, [])) ∧
    (∀ F self s, hasNul s = true →
      AgcFile.n_ctg F self s = (.error .nulError, [])) ∧
    (∀ F self s name, hasNul s = true →
      AgcFile.get_ctg_len F self (some s) name = AgcFile.get_ctg_len F self none name) ∧
    (∀ F self s name start end_, hasNul s = true →
      AgcFile.get_ctg_seq F self (some s) name start end_ =
        AgcFile.get_ctg_seq F self none name start end_) ∧
    (∀ F self s, hasNul s = true →
      AgcFile.list_ctg F self (some s) = AgcFile.list_ctg F self none) := by
  refine ⟨?_, ?_, ?_, ?_, ?_, ?_, ?_⟩
  · intro F fname p h
    unfold AgcFile.open_
    rw [if_pos h]
  · intro F self sample name h
    unfold AgcFile.get_ctg_len
    rw [if_pos h]
  · intro F self sample name start end_ h
    unfold AgcFile.get_ctg_seq
    rw [if_pos h]
  · intro F self s h
    unfold AgcFile.n_ctg
    rw [if_pos h]
  · intro F self s name h
    have e : cSampleOf (some s) = cSampleOf none := by simp [cSampleOf, h]
    unfold AgcFile.get_ctg_len
    rw [e]
  · intro F self s name start end_ h
    have e : cSampleOf (some s) = cSampleOf none := by simp [cSampleOf, h]
    unfold AgcFile.get_ctg_seq
    rw [e]
  · intro F self s h
    have e : cSampleOf (some s) = cSampleOf none := by simp [cSampleOf, h]
    unfold AgcFile.list_ctg
    rw [e]

/-- C2 witness: the amended theorem evaluated on concrete inputs. -/
theorem c2_witness :
    AgcFile.open_ Fbase [0] true = (.error .nulError, []) ∧
    AgcFile.get_ctg_seq Fbase ⟨1⟩ (some [0]) [65] 0 9 =
      AgcFile.get_ctg_seq Fbase ⟨1⟩ none [65] 0 9 :=
  ⟨c2_amended.1 Fbase [0] true (by decide),
   c2_amended.2.2.2.2.2.1 Fbase ⟨1⟩ [0] [65] 0 9 (by decide)⟩

/-- C3 counterexample: a negative foreign count is returned to the caller as
data, by n_sample unchanged and by n_ctg wrapped in a successful Ok. -/
theorem c3_counterexample :
    AgcFile.n_sample FnegCount ⟨1⟩ = (-5, [.nSampleEv]) ∧
    AgcFile.n_ctg FnegCount ⟨1⟩ [65] = (.ok (-3), [.nCtgEv [65]]) := by
  decide

/-- C3 amended: the counting operations n_sample and n_ctg return the raw
foreign count unchanged, with no sentinel conversion, so a negative foreign
count would reach the caller as data; the other operations do convert their
failure sentinels into errors at the boundary: the null handle of open, the
negative code of get_ctg_len, the negative code of get_ctg_seq, the null
string of reference_sample, and the null arrays of list_sample and list_ctg. -/
theorem c3_amended (F : Foreign) (self : AgcFile) :
    (AgcFile.n_sample F self).1 = F.agc_n_sample self.handle ∧
    (∀ s, hasNul s = false →
      AgcFile.n_ctg F self s = (.ok (F.agc_n_ctg self.handle s), [.nCtgEv s])) ∧
    (∀ sample name, hasNul name = false →
      F.agc_get_ctg_len self.handle (cSampleOf sample) name < 0 →
      AgcFile.get_ctg_len F self sample name =
        (.error (.ctgLenFailed name), [.getCtgLenEv (cSampleOf sample) name])) ∧
    (∀ fname p, hasNul fname = false →
      F.agc_open fname (if p then 1 else 0) = 0 →
      AgcFile.open_ F fname p =
        (.error (.openFailed fname), [.openEv fname (if p then 1 else 0)])) ∧
    (∀ sample name start end_, hasNul name = false →
      seqBufSize start end_ ≤ isizeMax →
      (F.agc_get_ctg_seq self.handle (cSampleOf sample) name start end_).1 < 0 →
      AgcFile.get_ctg_seq F self sample name start end_ =
        (.error (.ctgSeqFailed name), [.getCtgSeqEv (cSampleOf sample) name start end_])) ∧
    (F.agc_reference_sample self.handle = none →
      AgcFile.reference_sample F self = (.error .refSampleFailed, [.referenceSampleEv])) ∧
    (F.agc_list_sample self.handle = none →
      AgcFile.list_sample F self = (.error .listSampleFailed, [.listSampleEv])) ∧
    (∀ sample, F.agc_list_ctg self.handle (cSampleOf sample) = none →
      AgcFile.list_ctg F self sample =
        (.error .listCtgFailed, [.listCtgEv (cSampleOf sample)])) := by
  refine ⟨rfl, ?_, ?_, ?_, ?_, ?_, ?_, ?_⟩
  · intro s h
    unfold AgcFile.n_ctg
    rw [if_neg (by simp [h])]
  · intro sample name h hneg
    unfold AgcFile.get_ctg_len
    rw [if_neg (by simp [h]), if_pos hneg]
  · intro fname p h h0
    unfold AgcFile.open_
    rw [if_neg (by simp [h]), if_pos h0]
  · intro sample name start end_ h hbuf hneg
    unfold AgcFile.get_ctg_seq
    rw [if_neg (by simp [h]), if_neg (not_lt.mpr hbuf), if_pos hneg]
  · intro h
    unfold AgcFile.reference_sample
    rw [h]
  · intro h
    unfold AgcFile.list_sample
    rw [h]
  · intro sample h
    unfold AgcFile.list_ctg
    rw [h]

/-- C3 witness: the amended theorem evaluated on concrete inputs, including one
null-returning enumeration and one negative extraction code. -/
theorem c3_witness :
    (AgcFile.n_sample FnegCount ⟨1⟩).1 = FnegCount.agc_n_sample 1 ∧
    AgcFile.n_ctg FnegCount ⟨1⟩ [65] = (.ok (FnegCount.agc_n_ctg 1 [65]), [.nCtgEv [65]]) ∧
    AgcFile.get_ctg_seq Fneg ⟨1⟩ none [66] 0 9 =
      (.error (.ctgSeqFailed [66]), [.getCtgSeqEv none [66] 0 9]) ∧
    AgcFile.list_sample Fnull ⟨1⟩ = (.error .listSampleFailed, [.listSampleEv]) :=
  ⟨(c3_amended FnegCount ⟨1⟩).1,
   (c3_amended FnegCount ⟨1⟩).2.1 [65] (by decide),
   (c3_amended Fneg ⟨1⟩).2.2.2.2.1 none [66] 0 9 (by decide) (by decide) (by decide),
   (c3_amended Fnull ⟨1⟩).2.2.2.2.2.2.1 (by decide)⟩

/-- C4: whenever the foreign extraction primitive answers with a negative
return code (and the call reaches it, that is the name has no embedded nul and
the buffer allocation did not abort), get_ctg_seq yields the sequence fetch
failure error and no sequence data. -/
theorem c4_seq_fetch_failed (F : Foreign) (self : AgcFile) (sample : Option ByteStr)
    (name : ByteStr) (start end_ : Int)
    (hname : hasNul name = false)
    (hbuf : seqBufSize start end_ ≤ isizeMax)
    (hneg : (F.agc_get_ctg_seq self.handle (cSampleOf sample) name start end_).1 < 0) :
    AgcFile.get_ctg_seq F self sample name start end_ =
      (.error (.ctgSeqFailed name), [.getCtgSeqEv (cSampleOf sample) name start end_]) := by
  unfold AgcFile.get_ctg_seq
  rw [if_neg (by simp [hname]), if_neg (not_lt.mpr hbuf), if_pos hneg]

/-- C4 witness: a query for the contig named nonexistent_contig over the range
zero to one hundred with no sample, against a foreign layer that answers it
with a negative code, fails with the sequence fetch error. -/
theorem c4_witness :
    AgcFile.get_ctg_seq Fneg ⟨1⟩ none
      [110, 111, 110, 101, 120, 105, 115, 116, 101, 110, 116] 0 100 =
      (.error (.ctgSeqFailed [110, 111, 110, 101, 120, 105, 115, 116, 101, 110, 116]),
       [.getCtgSeqEv none [110, 111, 110, 101, 120, 105, 115, 116, 101, 110, 116] 0 100]) :=
  c4_seq_fetch_failed Fneg ⟨1⟩ none _ 0 100 (by decide) (by decide) (by decide)

/-- C5 counterexample: two calls with the same contig name but different
samples produce the identical error value, so the error payload cannot
identify the sample. -/
theorem c5_counterexample :
    ([65] : ByteStr) ≠ [66] ∧
    AgcFile.get_ctg_len Fneg ⟨1⟩ (some [65]) [88] =
      (.error (.ctgLenFailed [88]), [.getCtgLenEv (some [65]) [88]]) ∧
    AgcFile.get_ctg_len Fneg ⟨1⟩ (some [66]) [88] =
      (.error (.ctgLenFailed [88]), [.getCtgLenEv (some [66]) [88]]) := by
  decide

/-- C5 amended: a negative foreign return code maps to an error whose payload
identifies the contig name only, not the sample, and a non-negative return
code is returned unchanged as the contig length. -/
theorem c5_amended (F : Foreign) (self : AgcFile) (sample : Option ByteStr)
    (name : ByteStr) (hname : hasNul name = false) :
    (F.agc_get_ctg_len self.handle (cSampleOf sample) name < 0 →
      AgcFile.get_ctg_len F self sample name =
        (.error (.ctgLenFailed name), [.getCtgLenEv (cSampleOf sample) name])) ∧
    (0 ≤ F.agc_get_ctg_len self.handle (cSampleOf sample) name →
      AgcFile.get_ctg_len F self sample name =
        (.ok (F.agc_get_ctg_len self.handle (cSampleOf sample) name),
         [.getCtgLenEv (cSampleOf sample) name])) := by
  constructor
  · intro hneg
    unfold AgcFile.get_ctg_len
    rw [if_neg (by simp [hname]), if_pos hneg]
  · intro hpos
    unfold AgcFile.get_ctg_len
    rw [if_neg (by simp [hname]), if_neg (not_lt.mpr hpos)]

/-- C5 witness: the amended theorem evaluated on concrete inputs, one failing
lookup and one successful lookup. -/
theorem c5_witness :
    AgcFile.get_ctg_len Fneg ⟨1⟩ none [88] =
      (.error (.ctgLenFailed [88]), [.getCtgLenEv none [88]]) ∧
    AgcFile.get_ctg_len Fbase ⟨1⟩ none [88] = (.ok 7, [.getCtgLenEv none [88]]) :=
  ⟨(c5_amended Fneg ⟨1⟩ none [88] (by decide)).1 (by decide),
   (c5_amended Fbase ⟨1⟩ none [88] (by decide)).2 (by decide)⟩

/-- C6: open fails with the encoding error on a path with an embedded nul, maps
a null foreign handle to the open failure error carrying the attempted path,
and on success holds exactly the non-null handle the foreign layer returned. -/
theorem c6_open_contract (F : Foreign) (fname : ByteStr) (p : Bool) :
    (hasNul fname = true → AgcFile.open_ F fname p = (.error .nulError, [])) ∧
    (hasNul fname = false → F.agc_open fname (if p then 1 else 0) = 0 →
      AgcFile.open_ F fname p =
        (.error (.openFailed fname), [.openEv fname (if p then 1 else 0)])) ∧
    (∀ af tr, AgcFile.open_ F fname p = (.ok af, tr) →
      af.handle = F.agc_open fname (if p then 1 else 0) ∧ af.handle ≠ 0) := by
  refine ⟨?_, ?_, ?_⟩
  · intro h
    unfold AgcFile.open_
    rw [if_pos h]
  · intro h h0
    unfold AgcFile.open_
    rw [if_neg (by simp [h]), if_pos h0]
  · intro af tr h
    unfold AgcFile.open_ at h
    by_cases h1 : hasNul fname = true
    · rw [if_pos h1] at h
      exact absurd h (by simp)
    · rw [if_neg h1] at h
      by_cases h2 : F.agc_open fname (if p then 1 else 0) = 0
      · rw [if_pos h2] at h
        exact absurd h (by simp)
      · rw [if_neg h2] at h
        injection h with h3 h4
        injection h3 with h5
        subst h5
        exact ⟨rfl, h2⟩

/-- C6 witness: the theorem evaluated on a concrete null-returning open and on
a concrete successful open. -/
theorem c6_witness :
    AgcFile.open_ FnullOpen [65] true = (.error (.openFailed [65]), [.openEv [65] 1]) ∧
    (AgcFile.mk 1).handle = Fbase.agc_open [65] 1 ∧ (AgcFile.mk 1).handle ≠ 0 :=
  ⟨(c6_open_contract FnullOpen [65] true).2.1 (by decide) (by decide),
   (c6_open_contract Fbase [65] true).2.2 ⟨1⟩ [.openEv [65] 1] (by decide)⟩

/-- C7: a null foreign array yields the listing failure error with no destroy
call, and a non-null foreign array is copied entry by entry and the array
destructor is invoked exactly once, after the listing call that produced the
array; the returned strings are the copied values, so nothing of the foreign
array is retained past the release. -/
theorem c7_list_release (F : Foreign) (self : AgcFile) :
    (∀ arr, F.agc_list_sample self.handle = some arr →
      AgcFile.list_sample F self =
        (.ok (arr.filterMap (fun p => p.map lossyDecode)),
         [.listSampleEv, .listDestroyEv])) ∧
    (F.agc_list_sample self.handle = none →
      AgcFile.list_sample F self = (.error .listSampleFailed, [.listSampleEv])) ∧
    (∀ sample arr, F.agc_list_ctg self.handle (cSampleOf sample) = some arr →
      AgcFile.list_ctg F self sample =
        (.ok (arr.filterMap (fun p => p.map lossyDecode)),
         [.listCtgEv (cSampleOf sample), .listDestroyEv])) ∧
    (∀ sample, F.agc_list_ctg self.handle (cSampleOf sample) = none →
      AgcFile.list_ctg F self sample =
        (.error .listCtgFailed, [.listCtgEv (cSampleOf sample)])) := by
  refine ⟨?_, ?_, ?_, ?_⟩
  · intro arr h
    unfold AgcFile.list_sample
    rw [h]
  · intro h
    unfold AgcFile.list_sample
    rw [h]
  · intro sample arr h
    unfold AgcFile.list_ctg
    rw [h]
  · intro sample h
    unfold AgcFile.list_ctg
    rw [h]

/-- C7 witness: the theorem evaluated on a concrete non-null array and on a
concrete null array. -/
theorem c7_witness :
    AgcFile.list_sample Fbase ⟨1⟩ =
      (.ok ([some [65], some [66]].filterMap (fun p => p.map lossyDecode)),
       [.listSampleEv, .listDestroyEv]) ∧
    AgcFile.list_sample Fnull ⟨1⟩ = (.error .listSampleFailed, [.listSampleEv]) :=
  ⟨(c7_list_release Fbase ⟨1⟩).1 [some [65], some [66]] (by decide),
   (c7_list_release Fnull ⟨1⟩).2.1 (by decide)⟩

lemma cSampleOf_not_nul {s : ByteStr} (h : hasNul s = false) :
    cSampleOf (some s) = some s := by
  simp [cSampleOf, h]

lemma length_filterMap_map_eq (arr : List (Option ByteStr)) :
    (arr.filterMap (fun p => p.map lossyDecode)).length = (arr.filterMap id).length := by
  induction arr with
  | nil => simp
  | cons a as ih => cases a <;> simp [List.filterMap_cons, ih]

/-- C1 counterexample: at start equal to the smallest i32 value and end equal
to zero the requested range satisfies end at least start, yet the computed
buffer size is not end minus start plus one and the call aborts before any
foreign call instead of allocating; moreover a successful foreign return of
zero bytes over the range zero to one hundred produces a text of length zero,
not one hundred. -/
theorem c1_counterexample :
    (-(2 ^ 31) : Int) ≤ 0 ∧
    seqBufSize (-(2 ^ 31)) 0 ≠ ((0 : Int) - -(2 ^ 31)).toNat + 1 ∧
    AgcFile.get_ctg_seq Fbase ⟨1⟩ none [65] (-(2 ^ 31)) 0 = (.crash, []) ∧
    AgcFile.get_ctg_seq Fzero ⟨1⟩ none [65] 0 100 =
      (.ok [], [.getCtgSeqEv none [65] 0 100]) ∧
    List.length ([] : ByteStr) ≠ ((100 : Int) - 0).toNat := by
  decide

/-- C1 amended: when additionally end minus start does not overflow i32, the
buffer size the wrapper allocates before invoking the foreign primitive is
exactly end minus start plus one; on a successful return the text has exactly
the length of the foreign returned byte count, which never exceeds the
requested buffer and which equals end minus start whenever the foreign
primitive returns end minus start. -/
theorem c1_amended (F : Foreign) (self : AgcFile) (sample : Option ByteStr)
    (name : ByteStr) (start end_ : Int) (out : ByteStr) (tr : List FEvent)
    (_h1 : -(2 ^ 31) ≤ start) (h2 : start ≤ end_) (_h3 : end_ < 2 ^ 31)
    (h4 : end_ - start ≤ 2 ^ 31 - 1)
    (hok : AgcFile.get_ctg_seq F self sample name start end_ = (.ok out, tr)) :
    seqBufSize start end_ = (end_ - start).toNat + 1 ∧
    out.length = (F.agc_get_ctg_seq self.handle (cSampleOf sample) name start end_).1.toNat ∧
    out.length ≤ seqBufSize start end_ ∧
    ((F.agc_get_ctg_seq self.handle (cSampleOf sample) name start end_).1 = end_ - start →
      out.length = (end_ - start).toNat) := by
  have hsz : seqBufSize start end_ = (end_ - start).toNat + 1 := by
    unfold seqBufSize usizeCast i32sub
    omega
  have hb : ¬ (isizeMax < seqBufSize start end_) := by
    rw [hsz]
    unfold isizeMax
    omega
  unfold AgcFile.get_ctg_seq at hok
  by_cases hn : hasNul name = true
  · rw [if_pos hn] at hok
    exact absurd hok (by simp)
  · rw [if_neg hn, if_neg hb] at hok
    by_cases hr : (F.agc_get_ctg_seq self.handle (cSampleOf sample) name start end_).1 < 0
    · rw [if_pos hr] at hok
      exact absurd hok (by simp)
    · rw [if_neg hr] at hok
      by_cases hov : seqBufSize start end_ <
          (F.agc_get_ctg_seq self.handle (cSampleOf sample) name start end_).1.toNat
      · rw [if_pos hov] at hok
        exact absurd hok (by simp)
      · rw [if_neg hov] at hok
        by_cases hv : isValidUtf8 ((writeBuf (seqBufSize start end_)
            (F.agc_get_ctg_seq self.handle (cSampleOf sample) name start end_).2).take
            (F.agc_get_ctg_seq self.handle (cSampleOf sample) name start end_).1.toNat) = true
        · rw [if_pos hv] at hok
          injection hok with hok1 hok2
          injection hok1 with hout
          subst hout
          have hlen : ((writeBuf (seqBufSize start end_)
              (F.agc_get_ctg_seq self.handle (cSampleOf sample) name start end_).2).take
              (F.agc_get_ctg_seq self.handle (cSampleOf sample) name start end_).1.toNat).length =
              (F.agc_get_ctg_seq self.handle (cSampleOf sample) name start end_).1.toNat := by
            rw [List.length_take, writeBuf_length]
            omega
          refine ⟨hsz, hlen, ?_, ?_⟩
          · rw [hlen]
            omega
          · intro hre
            rw [hlen, hre]
        · rw [if_neg hv] at hok
          exact absurd hok (by simp)

/-- Helper value for the C1 witness: the buffer contents a concrete foreign
layer produces for the range zero to one hundred. -/
def outW : ByteStr := List.replicate 40 65 ++ List.replicate 60 0

/-- C1 witness: the amended theorem evaluated at a concrete call on the range
zero to one hundred whose foreign return code is one hundred. -/
theorem c1_witness :
    seqBufSize 0 100 = ((100 : Int) - 0).toNat + 1 ∧
    outW.length = (Fbase.agc_get_ctg_seq 1 none [65] 0 100).1.toNat ∧
    outW.length = ((100 : Int) - 0).toNat := by
  have h := c1_amended Fbase ⟨1⟩ none [65] 0 100 outW [.getCtgSeqEv none [65] 0 100]
      (by decide) (by decide) (by decide) (by decide) (by decide)
  exact ⟨h.1, h.2.1, h.2.2.2 (by decide)⟩

/-- C8: under the count agreement the foreign layer is specified to maintain
(the reported count equals the number of entries and the entries of a reported
array are non-null), list_sample returns exactly as many names as n_sample
reports and list_ctg returns exactly as many names as n_ctg reports for that
sample; independently of that agreement, a null entry inside a non-null array
is skipped, never dereferenced, and the walk returns exactly the non-null
entries without failing. -/
theorem c8_enumeration_counts (F : Foreign) (self : AgcFile) :
    (∀ arr, F.agc_list_sample self.handle = some arr →
      (∀ x ∈ arr, x ≠ none) →
      F.agc_n_sample self.handle = (arr.length : Int) →
      ∃ out tr, AgcFile.list_sample F self = (.ok out, tr) ∧
        (out.length : Int) = (AgcFile.n_sample F self).1) ∧
    (∀ s arr, hasNul s = false →
      F.agc_list_ctg self.handle (some s) = some arr →
      (∀ x ∈ arr, x ≠ none) →
      F.agc_n_ctg self.handle s = (arr.length : Int) →
      ∃ out tr, AgcFile.list_ctg F self (some s) = (.ok out, tr) ∧
        AgcFile.n_ctg F self s = (.ok (out.length : Int), [.nCtgEv s])) ∧
    (∀ arr, F.agc_list_sample self.handle = some arr →
      ∃ out tr, AgcFile.list_sample F self = (.ok out, tr) ∧
        out.length = (arr.filterMap id).length) := by
  refine ⟨?_, ?_, ?_⟩
  · intro arr hF hnn hcount
    refine ⟨arr.filterMap (fun p => p.map lossyDecode), [.listSampleEv, .listDestroyEv], ?_, ?_⟩
    · unfold AgcFile.list_sample
      rw [hF]
    · unfold AgcFile.n_sample
      rw [length_filterMap_of_no_none hnn, hcount]
  · intro s arr hs hF hnn hcount
    refine ⟨arr.filterMap (fun p => p.map lossyDecode),
        [.listCtgEv (some s), .listDestroyEv], ?_, ?_⟩
    · unfold AgcFile.list_ctg
      rw [cSampleOf_not_nul hs, hF]
    · unfold AgcFile.n_ctg
      rw [if_neg (by simp [hs]), length_filterMap_of_no_none hnn, hcount]
  · intro arr hF
    refine ⟨arr.filterMap (fun p => p.map lossyDecode), [.listSampleEv, .listDestroyEv], ?_,
        length_filterMap_map_eq arr⟩
    unfold AgcFile.list_sample
    rw [hF]

/-- C8 witness: the theorem evaluated on a concrete foreign layer with two
samples and three contigs per sample, counts agreeing with the arrays. -/
theorem c8_witness :
    (∃ out tr, AgcFile.list_sample Fbase ⟨1⟩ = (.ok out, tr) ∧
      (out.length : Int) = (AgcFile.n_sample Fbase ⟨1⟩).1) ∧
    (∃ out tr, AgcFile.list_ctg Fbase ⟨1⟩ (some [65]) = (.ok out, tr) ∧
      AgcFile.n_ctg Fbase ⟨1⟩ [65] = (.ok (out.length : Int), [.nCtgEv [65]])) :=
  ⟨(c8_enumeration_counts Fbase ⟨1⟩).1 [some [65], some [66]] (by decide)
      (by decide) (by decide),
   (c8_enumeration_counts Fbase ⟨1⟩).2.1 [65] [some [67], some [68], some [69]]
      (by decide) (by decide) (by decide) (by decide)⟩

/-- C9: get_ctg_seq validates nothing about the range: with no i32 overflow and
end at least start the buffer size is end minus start plus one; when end is
below start the usize cast of the wrapped difference is at least two to the
sixty-third, and an oversized buffer aborts the call before the foreign
primitive runs, producing the crash outcome and not a typed error; and when
the non-negative foreign byte count exceeds the buffer size, the slice of the
buffer aborts, again producing the crash outcome and not a typed error. -/
theorem c9_no_range_validation (start end_ : Int)
    (_h1 : -(2 ^ 31) ≤ start) (_h2 : start < 2 ^ 31)
    (_h3 : -(2 ^ 31) ≤ end_) (_h4 : end_ < 2 ^ 31) :
    (start ≤ end_ → end_ - start ≤ 2 ^ 31 - 1 →
      seqBufSize start end_ = (end_ - start).toNat + 1) ∧
    (end_ < start → -(2 ^ 31) ≤ end_ - start →
      2 ^ 63 ≤ usizeCast (i32sub end_ start)) ∧
    (∀ F self sample name, hasNul name = false →
      isizeMax < seqBufSize start end_ →
      AgcFile.get_ctg_seq F self sample name start end_ = (.crash, [])) ∧
    (∀ (F : Foreign) self sample name, hasNul name = false →
      seqBufSize start end_ ≤ isizeMax →
      0 ≤ (F.agc_get_ctg_seq self.handle (cSampleOf sample) name start end_).1 →
      seqBufSize start end_ <
        (F.agc_get_ctg_seq self.handle (cSampleOf sample) name start end_).1.toNat →
      AgcFile.get_ctg_seq F self sample name start end_ =
        (.crash, [.getCtgSeqEv (cSampleOf sample) name start end_])) := by
  refine ⟨?_, ?_, ?_, ?_⟩
  · intro hle hnov
    unfold seqBufSize usizeCast i32sub
    omega
  · intro hlt hnov
    unfold usizeCast i32sub
    omega
  · intro F self sample name hn hbig
    unfold AgcFile.get_ctg_seq
    rw [if_neg (by simp [hn]), if_pos hbig]
  · intro F self sample name hn hbuf hpos hov
    unfold AgcFile.get_ctg_seq
    rw [if_neg (by simp [hn]), if_neg (not_lt.mpr hbuf), if_neg (not_lt.mpr hpos), if_pos hov]

/-- C9 witness: the theorem evaluated at start one hundred and end zero, a
reversed range on which the cast wraps huge and the call crashes before any
foreign event. -/
theorem c9_witness :
    2 ^ 63 ≤ usizeCast (i32sub 0 100) ∧
    AgcFile.get_ctg_seq Fbase ⟨1⟩ none [65] 100 0 = (.crash, []) := by
  have h := c9_no_range_validation 100 0 (by decide) (by decide) (by decide) (by decide)
  exact ⟨h.2.1 (by decide) (by decide),
         h.2.2.1 Fbase ⟨1⟩ none [65] (by decide) (by decide)⟩

/-- C10: the name returning operations decode foreign bytes lossily and never
fail on invalid text: reference_sample returns the lossy decoding of any
non-null string, and none of reference_sample, list_sample and list_ctg can
produce the utf8 decoding error; an invalid byte is replaced by the U+FFFD
encoding, as on a concrete invalid name; and get_ctg_seq does fail with the
decoding error on invalid bytes, as on a concrete extraction. -/
theorem c10_lossy_names (F : Foreign) (self : AgcFile) :
    (∀ bs, F.agc_reference_sample self.handle = some bs →
      AgcFile.reference_sample F self = (.ok (lossyDecode bs), [.referenceSampleEv])) ∧
    (AgcFile.reference_sample F self).1 ≠ .error .invalidUtf8 ∧
    (AgcFile.list_sample F self).1 ≠ .error .invalidUtf8 ∧
    (∀ sample, (AgcFile.list_ctg F self sample).1 ≠ .error .invalidUtf8) ∧
    lossyDecode [255, 65] = [239, 191, 189, 65] ∧
    AgcFile.get_ctg_seq Fbad ⟨1⟩ none [65] 0 1 =
      (.error .invalidUtf8, [.getCtgSeqEv none [65] 0 1]) := by
  refine ⟨?_, ?_, ?_, ?_, by decide, by decide⟩
  · intro bs h
    unfold AgcFile.reference_sample
    rw [h]
  · unfold AgcFile.reference_sample
    rcases F.agc_reference_sample self.handle with _ | bs <;> simp
  · unfold AgcFile.list_sample
    rcases F.agc_list_sample self.handle with _ | arr <;> simp
  · intro sample
    unfold AgcFile.list_ctg
    rcases F.agc_list_ctg self.handle (cSampleOf sample) with _ | arr <;> simp

/-- C10 witness: the theorem evaluated on a concrete foreign layer returning a
reference sample name. -/
theorem c10_witness :
    AgcFile.reference_sample Fbase ⟨1⟩ = (.ok (lossyDecode [82]), [.referenceSampleEv]) :=
  (c10_lossy_names Fbase ⟨1⟩).1 [82] (by decide)
